import Mathlib

/-!
Verification of the spectral analysis engine of the pitcher-app chord-DSP
module (`HybridChordDSP.cpp`): resampler, mel filterbank, mel spectrogram
and chromagram. Floating-point values are idealised as real numbers; C++
`static_cast<int>` on a floating value is modelled by truncation toward
zero (`truncInt`), C++ `int` division by `Int.tdiv` and C++ `%` on `int`
by `Int.tmod`.
-/

namespace ChordDSP

/-- `kTargetSampleRate` from `HybridChordDSP.hpp`. -/
def kTargetSampleRate : ℤ := 22050

/-- `kFFTSize` from `HybridChordDSP.hpp`. -/
def kFFTSize : ℕ := 2048

/-- `kHopSize` from `HybridChordDSP.hpp`. -/
def kHopSize : ℕ := 512

/-- `kMelBins` from `HybridChordDSP.hpp`. -/
def kMelBins : ℕ := 229

/-- `kMinFreq` from `HybridChordDSP.hpp`. -/
def kMinFreq : ℝ := 30

/-- `kMaxFreq` from `HybridChordDSP.hpp`. -/
def kMaxFreq : ℝ := 11025

/-- `fftBins = kFFTSize / 2 + 1` as computed in the source. -/
def fftBins : ℕ := kFFTSize / 2 + 1

/-- C++ `static_cast<int>` applied to a floating-point value: truncation
toward zero. -/
noncomputable def truncInt (x : ℝ) : ℤ := if 0 ≤ x then ⌊x⌋ else ⌈x⌉

/-- `HybridChordDSP::resampleTo22050` (`HybridChordDSP.cpp:57-79`):
identity when `(int)sourceSampleRate == kTargetSampleRate`, otherwise
linear interpolation at ratio `kTargetSampleRate / sourceSampleRate`;
output slots whose source index is past the end keep the vector's zero
initialisation. -/
noncomputable def resampleTo22050 (samples : List ℝ) (sourceSampleRate : ℝ) : List ℝ :=
  if truncInt sourceSampleRate = kTargetSampleRate then samples
  else
    let ratio : ℝ := (kTargetSampleRate : ℝ) / sourceSampleRate
    let outputLen : ℤ := ⌈(samples.length : ℝ) * ratio⌉
    (List.range outputLen.toNat).map (fun (i : ℕ) =>
      let srcIdx : ℝ := (i : ℝ) / ratio
      let idx0 : ℤ := truncInt srcIdx
      let frac : ℝ := srcIdx - (idx0 : ℝ)
      if idx0 + 1 < (samples.length : ℤ) then
        samples.getD idx0.toNat 0 * (1 - frac) + samples.getD (idx0.toNat + 1) 0 * frac
      else if idx0 < (samples.length : ℤ) then
        samples.getD idx0.toNat 0
      else 0)

/-- The Hann window `0.5 * (1 - cos(2π·i/(kFFTSize-1)))` computed at
`HybridChordDSP.cpp:171-174`. -/
noncomputable def hannWindow (i : ℕ) : ℝ :=
  0.5 * (1 - Real.cos (2 * Real.pi * (i : ℝ) / ((kFFTSize : ℝ) - 1)))

/-- `samples[offset + n] * window[n]`, the windowed sample feeding the
reference DFT loop. -/
noncomputable def windowedSample (x : List ℝ) (offset n : ℕ) : ℝ :=
  x.getD (offset + n) 0 * hannWindow n

/-- The cosine correlation sum `re` accumulated by the reference backend
(`re += sample * cos(2π·k·n/kFFTSize)`). -/
noncomputable def dftRe (x : List ℝ) (offset k : ℕ) : ℝ :=
  ∑ n in Finset.range kFFTSize,
    windowedSample x offset n * Real.cos (2 * Real.pi * (k : ℝ) * (n : ℝ) / (kFFTSize : ℝ))

/-- The sine correlation sum `im` accumulated by the reference backend
(`im -= sample * sin(2π·k·n/kFFTSize)`, hence the leading minus). -/
noncomputable def dftIm (x : List ℝ) (offset k : ℕ) : ℝ :=
  - ∑ n in Finset.range kFFTSize,
      windowedSample x offset n * Real.sin (2 * Real.pi * (k : ℝ) * (n : ℝ) / (kFFTSize : ℝ))

/-- `magnitudes[k] = (re*re + im*im) / kFFTSize`, the power-spectrum bin of
the reference backend. -/
noncomputable def binPower (x : List ℝ) (offset k : ℕ) : ℝ :=
  (dftRe x offset k ^ 2 + dftIm x offset k ^ 2) / (kFFTSize : ℝ)

/-- `freq = k * sr / kFFTSize` with `sr` the already-truncated sample rate
(`int sr = static_cast<int>(sampleRate)`). -/
noncomputable def chromaFreq (sr : ℤ) (k : ℕ) : ℝ := (k : ℝ) * (sr : ℝ) / (kFFTSize : ℝ)

/-- `std::round`: round half away from zero. -/
noncomputable def roundHalfAway (x : ℝ) : ℤ := if 0 ≤ x then ⌊x + 1 / 2⌋ else ⌈x - 1 / 2⌉

/-- The pitch-class computation of `HybridChordDSP.cpp:233-235`:
`midi = 69 + 12·log2(freq/440)`, `pc = (int)round(midi) % 12` (C truncated
remainder), then `if (pc < 0) pc += 12`. -/
noncomputable def codePitchClass (freq : ℝ) : ℤ :=
  let midiNote : ℝ := 69 + 12 * Real.logb 2 (freq / 440)
  let r := Int.tmod (roundHalfAway midiNote) 12
  if r < 0 then r + 12 else r

/-- One iteration of the inner bin loop of the chromagram: skip the bin when
its frequency lies outside `[60, 2000]`, otherwise add its power to the
mapped pitch class (`chroma[pitchClass] += mag`). -/
noncomputable def chromaBinStep (x : List ℝ) (sr : ℤ) (offset : ℕ) (c : ℕ → ℝ) (k : ℕ) :
    ℕ → ℝ :=
  if chromaFreq sr k < 60 ∨ 2000 < chromaFreq sr k then c
  else
    Function.update c (codePitchClass (chromaFreq sr k)).toNat
      (c (codePitchClass (chromaFreq sr k)).toNat + binPower x offset k)

/-- One frame of the chromagram loop: bins `k = 1 .. fftBins-1` at offset
`frame * kHopSize`. -/
noncomputable def chromaFrameStep (x : List ℝ) (sr : ℤ) (c : ℕ → ℝ) (frame : ℕ) : ℕ → ℝ :=
  (List.range' 1 (fftBins - 1)).foldl (chromaBinStep x sr (frame * kHopSize)) c

/-- The accumulated (pre-normalization) chroma vector after all frames,
starting from the all-zero vector. -/
noncomputable def chromaAccum (x : List ℝ) (sr : ℤ) (numFrames : ℕ) : ℕ → ℝ :=
  (List.range numFrames).foldl (chromaFrameStep x sr) (fun _ => 0)

/-- `numFrames = (numSamples - kFFTSize) / kHopSize + 1`, evaluated by the
chromagram only after the `numSamples < kFFTSize` guard. -/
def chromaNumFrames (n : ℕ) : ℕ := (n - kFFTSize) / kHopSize + 1

/-- `HybridChordDSP::computeChromagram` (`HybridChordDSP.cpp:164-248`),
reference backend: early 12-zero return for short input, per-frame per-bin
accumulation, then division of every element by the maximum when the
maximum is positive. -/
noncomputable def computeChromagram (samples : List ℝ) (sampleRate : ℝ) : List ℝ :=
  if samples.length < kFFTSize then List.replicate 12 0
  else
    let chroma := chromaAccum samples (truncInt sampleRate) (chromaNumFrames samples.length)
    let maxVal := (Finset.range 12).sup' (by decide) chroma
    if 0 < maxVal then (List.range 12).map (fun pc => chroma pc / maxVal)
    else (List.range 12).map chroma

/-- The total energy the chromagram accumulates: zero when the short-input
guard fires, otherwise the sum of the 12 accumulated pitch-class totals. -/
noncomputable def chromaTotal (samples : List ℝ) (sampleRate : ℝ) : ℝ :=
  if samples.length < kFFTSize then 0
  else
    ∑ pc in Finset.range 12,
      chromaAccum samples (truncInt sampleRate) (chromaNumFrames samples.length) pc

/-- The contribution of bin `k` of one frame to pitch class `pc`, as the
spec describes it: the bin's power when its frequency qualifies and maps to
`pc`, and zero otherwise. -/
noncomputable def chromaContrib (x : List ℝ) (sr : ℤ) (offset k pc : ℕ) : ℝ :=
  if 60 ≤ chromaFreq sr k ∧ chromaFreq sr k ≤ 2000 ∧
      (codePitchClass (chromaFreq sr k)).toNat = pc then
    binPower x offset k
  else 0

/-- `HybridChordDSP::hzToMel`: `2595 * log10(1 + hz/700)`. -/
noncomputable def hzToMel (hz : ℝ) : ℝ := 2595 * Real.logb 10 (1 + hz / 700)

/-- `HybridChordDSP::melToHz`: `700 * (10^(mel/2595) - 1)`. -/
noncomputable def melToHz (mel : ℝ) : ℝ := 700 * ((10 : ℝ) ^ (mel / 2595) - 1)

/-- `melPoints[i] = melMin + (melMax - melMin) * i / (kMelBins + 1)`, the
`kMelBins + 2` evenly spaced mel-scale boundary points of
`initMelFilterbank`. -/
noncomputable def melPoint (i : ℕ) : ℝ :=
  hzToMel kMinFreq + (hzToMel kMaxFreq - hzToMel kMinFreq) * (i : ℝ) / ((kMelBins : ℝ) + 1)

/-- `binFreqs[i] = melToHz(melPoints[i]) * kFFTSize / kTargetSampleRate`,
the FFT-bin-space coordinate of boundary point `i`. -/
noncomputable def binFreqCoord (i : ℕ) : ℝ :=
  melToHz (melPoint i) * (kFFTSize : ℝ) / (kTargetSampleRate : ℝ)

/-- The guarded triangular weight of `initMelFilterbank`
(`HybridChordDSP.cpp:44-51`): rising slope on `[left, center]` when
`center > left`, falling slope on `(center, right]` when `right > center`,
zero otherwise. -/
noncomputable def triWeight (left center right fk : ℝ) : ℝ :=
  if left ≤ fk ∧ fk ≤ center ∧ left < center then (fk - left) / (center - left)
  else if center < fk ∧ fk ≤ right ∧ center < right then (right - fk) / (right - center)
  else 0

/-- `melFilterbank_[m][k]`: row `m` of the filterbank evaluated at FFT bin
`k`, the triangle with boundary coordinates `binFreqs[m], binFreqs[m+1],
binFreqs[m+2]`. -/
noncomputable def melFilterbank (m k : ℕ) : ℝ :=
  triWeight (binFreqCoord m) (binFreqCoord (m + 1)) (binFreqCoord (m + 2)) (k : ℝ)

/-- The resample-if-needed step at the top of `computeMelSpectrogram`
(`HybridChordDSP.cpp:84-89`). -/
noncomputable def melAudio (samples : List ℝ) (sampleRate : ℝ) : List ℝ :=
  if truncInt sampleRate ≠ kTargetSampleRate then resampleTo22050 samples sampleRate
  else samples

/-- `numFrames = std::max(0, (numSamples - kFFTSize) / kHopSize + 1)` with
C++ `int` division, i.e. truncation toward zero (`Int.tdiv`). -/
def melNumFrames (n : ℕ) : ℕ :=
  (max 0 (Int.tdiv ((n : ℤ) - (kFFTSize : ℤ)) (kHopSize : ℤ) + 1)).toNat

/-- Modelled from the spec: the frame count as the spec states it, with
integer *floor* division (`numFrames = max(0, (numSamples - kFFTSize) /
kHopSize + 1)` "using integer (floor) division"), for comparison with the
code's truncated division. -/
def specNumFrames (n : ℕ) : ℕ :=
  (max 0 (Int.fdiv ((n : ℤ) - (kFFTSize : ℤ)) (kHopSize : ℤ) + 1)).toNat

/-- `sum += magnitudes[k] * melFilterbank_[m][k]` over all FFT bins: the
mel-bin energy of one frame (reference backend). -/
noncomputable def melEnergy (audio : List ℝ) (offset m : ℕ) : ℝ :=
  ∑ k in Finset.range fftBins, binPower audio offset k * melFilterbank m k

/-- `result[frame * kMelBins + m] = log(max(sum, 1e-10))`. -/
noncomputable def melEntry (audio : List ℝ) (frame m : ℕ) : ℝ :=
  Real.log (max (melEnergy audio (frame * kHopSize) m) 1e-10)

/-- `HybridChordDSP::computeMelSpectrogram` (`HybridChordDSP.cpp:81-162`),
reference backend: resample if the truncated rate differs from 22050,
compute the frame count, return empty when it is zero, otherwise the flat
row-major `numFrames × kMelBins` matrix of log-compressed mel energies. -/
noncomputable def computeMelSpectrogram (samples : List ℝ) (sampleRate : ℝ) : List ℝ :=
  let audio := melAudio samples sampleRate
  let numFrames := melNumFrames audio.length
  if numFrames = 0 then []
  else
    (List.range (numFrames * kMelBins)).map
      (fun idx => melEntry audio (idx / kMelBins) (idx % kMelBins))

end ChordDSP

namespace ChordDSP

/-- C8: `resampleTo22050(x, 22050)` returns `x` unchanged (the identity
case, decided by the integer-truncated comparison of the source rate
against 22050). -/
theorem resample_identity_at_22050 (x : List ℝ) : resampleTo22050 x 22050 = x := by
  have h : truncInt (22050 : ℝ) = kTargetSampleRate := by
    rw [truncInt, if_pos (by norm_num)]
    norm_num [kTargetSampleRate]
  rw [resampleTo22050, if_pos h]

lemma neg_tmod_left (a b : ℤ) : (-a).tmod b = -(a.tmod b) := by
  rw [Int.tmod_def, Int.tmod_def, Int.neg_tdiv]; ring

lemma tmod_twelve_bounds (a : ℤ) : -12 < a.tmod 12 ∧ a.tmod 12 < 12 := by
  refine ⟨?_, Int.tmod_lt_of_pos a (by norm_num)⟩
  rcases le_or_lt 0 a with h | h
  · have := Int.tmod_nonneg 12 h; omega
  · have h1 : a.tmod 12 = -((-a).tmod 12) := by rw [neg_tmod_left]; ring
    have h2 : (-a).tmod 12 < 12 := Int.tmod_lt_of_pos _ (by norm_num)
    omega

lemma codePitchClass_bounds (freq : ℝ) :
    0 ≤ codePitchClass freq ∧ codePitchClass freq < 12 := by
  rw [codePitchClass]
  have := tmod_twelve_bounds (roundHalfAway (69 + 12 * Real.logb 2 (freq / 440)))
  constructor <;> (split <;> omega)

lemma chromaBinStep_apply (x : List ℝ) (sr : ℤ) (offset : ℕ) (c : ℕ → ℝ) (k pc : ℕ) :
    chromaBinStep x sr offset c k pc = c pc + chromaContrib x sr offset k pc := by
  rw [chromaBinStep, chromaContrib]
  by_cases h : chromaFreq sr k < 60 ∨ 2000 < chromaFreq sr k
  · rw [if_pos h, if_neg (by rintro ⟨h1, h2, -⟩; rcases h with h3 | h3 <;> linarith)]
    ring
  · rw [if_neg h]
    push_neg at h
    by_cases hpc : (codePitchClass (chromaFreq sr k)).toNat = pc
    · rw [if_pos ⟨h.1, h.2, hpc⟩, hpc, Function.update_same]
    · rw [if_neg fun hcon => hpc hcon.2.2, Function.update_noteq (Ne.symm hpc)]
      ring

lemma foldl_chromaBinStep (x : List ℝ) (sr : ℤ) (offset : ℕ) (ks : List ℕ) (c : ℕ → ℝ)
    (pc : ℕ) :
    (ks.foldl (chromaBinStep x sr offset) c) pc
      = c pc + (ks.map (fun k => chromaContrib x sr offset k pc)).sum := by
  induction ks generalizing c with
  | nil => simp
  | cons k ks ih =>
      simp only [List.foldl_cons, List.map_cons, List.sum_cons]
      rw [ih, chromaBinStep_apply]
      ring

lemma foldl_chromaFrameStep (x : List ℝ) (sr : ℤ) (fs : List ℕ) (c : ℕ → ℝ) (pc : ℕ) :
    (fs.foldl (chromaFrameStep x sr) c) pc
      = c pc + (fs.map (fun fr =>
          ((List.range' 1 (fftBins - 1)).map
            (fun k => chromaContrib x sr (fr * kHopSize) k pc)).sum)).sum := by
  induction fs generalizing c with
  | nil => simp
  | cons f fs ih =>
      simp only [List.foldl_cons, List.map_cons, List.sum_cons]
      rw [ih, chromaFrameStep, foldl_chromaBinStep]
      ring

lemma chromaAccum_eq (x : List ℝ) (sr : ℤ) (n pc : ℕ) :
    chromaAccum x sr n pc
      = ∑ fr in Finset.range n, ∑ k in Finset.Ico 1 fftBins,
          chromaContrib x sr (fr * kHopSize) k pc := by
  rw [chromaAccum, foldl_chromaFrameStep]
  have hinner : ∀ fr : ℕ,
      ((List.range' 1 (fftBins - 1)).map
        (fun k => chromaContrib x sr (fr * kHopSize) k pc)).sum
        = ∑ k in Finset.Ico 1 fftBins, chromaContrib x sr (fr * kHopSize) k pc := by
    intro fr
    rw [Finset.sum_Ico_eq_sum_range, List.range'_eq_map_range, List.map_map]
    rfl
  simp only [hinner, zero_add]
  rfl

lemma binPower_nonneg (x : List ℝ) (offset k : ℕ) : 0 ≤ binPower x offset k := by
  rw [binPower]
  positivity

lemma chromaContrib_nonneg (x : List ℝ) (sr : ℤ) (offset k pc : ℕ) :
    0 ≤ chromaContrib x sr offset k pc := by
  rw [chromaContrib]
  split
  · exact binPower_nonneg x offset k
  · exact le_refl 0

lemma chromaAccum_nonneg (x : List ℝ) (sr : ℤ) (n pc : ℕ) : 0 ≤ chromaAccum x sr n pc := by
  rw [chromaAccum_eq]
  exact Finset.sum_nonneg fun fr _ =>
    Finset.sum_nonneg fun k _ => chromaContrib_nonneg x sr _ k pc

/-- C9: for input shorter than `kFFTSize` (2048) samples, `computeChromagram`
returns the 12-element all-zero vector immediately, before any frame or any
resampling is computed. -/
theorem chromagram_short_input (samples : List ℝ) (sampleRate : ℝ)
    (h : samples.length < kFFTSize) :
    computeChromagram samples sampleRate = List.replicate 12 0 := by
  rw [computeChromagram, if_pos h]

/-- Witness for C9 at the concrete one-sample input `[0]`. -/
theorem chromagram_short_input_witness :
    ([(0 : ℝ)].length < kFFTSize) ∧ computeChromagram [0] 44100 = List.replicate 12 0 :=
  ⟨by norm_num [kFFTSize], chromagram_short_input [0] 44100 (by norm_num [kFFTSize])⟩

/-- C10: `computeChromagram` depends on its `sampleRate` argument only
through its integer truncation (`int sr = (int)sampleRate`): two rates with
the same truncation give the same chromagram. -/
theorem chromagram_truncated_rate (x : List ℝ) (sr sr' : ℝ)
    (h : truncInt sr = truncInt sr') :
    computeChromagram x sr = computeChromagram x sr' := by
  rw [computeChromagram, computeChromagram, h]

/-- Witness for C10 at the concrete rates 44100.25 and 44100.75, which share
the truncation 44100. -/
theorem chromagram_truncated_rate_witness :
    truncInt (44100.25 : ℝ) = truncInt (44100.75 : ℝ) ∧
      computeChromagram [] 44100.25 = computeChromagram [] 44100.75 := by
  have h : truncInt (44100.25 : ℝ) = truncInt (44100.75 : ℝ) := by
    rw [truncInt, truncInt, if_pos (by norm_num), if_pos (by norm_num)]
    norm_num
  exact ⟨h, chromagram_truncated_rate [] _ _ h⟩

/-- C2 (amended: the bin frequency uses the integer-truncated sample rate):
in `computeChromagram`, for every frame and every FFT bin `k ∈ [1, fftBins)`
(DC excluded), bins whose frequency `k·trunc(sampleRate)/kFFTSize` falls
outside `[60, 2000]` contribute nothing, and every qualifying bin's power is
accumulated into pitch class `round(69 + 12·log2(freq/440)) mod 12` with the
truncated remainder corrected into `[0,11]` by adding 12 when negative,
summed across all frames and qualifying bins. -/
theorem chromagram_accumulation (samples : List ℝ) (sampleRate : ℝ) (pc : ℕ) :
    chromaAccum samples (truncInt sampleRate) (chromaNumFrames samples.length) pc
      = (∑ fr in Finset.range (chromaNumFrames samples.length),
          ∑ k in Finset.Ico 1 fftBins,
            if 60 ≤ chromaFreq (truncInt sampleRate) k ∧
                chromaFreq (truncInt sampleRate) k ≤ 2000 ∧
                (codePitchClass (chromaFreq (truncInt sampleRate) k)).toNat = pc then
              binPower samples (fr * kHopSize) k
            else 0) ∧
    ∀ f : ℝ, 0 ≤ codePitchClass f ∧ codePitchClass f < 12 := by
  refine ⟨?_, codePitchClass_bounds⟩
  rw [chromaAccum_eq]
  rfl

/-- C1: `computeChromagram` always returns exactly 12 elements, each in
`[0,1]`; whenever the total accumulated energy is nonzero the maximum
element equals exactly 1 (normalization divides by the maximum), and
whenever the total energy is zero all 12 elements are 0. -/
theorem chromagram_shape_and_normalization (samples : List ℝ) (sampleRate : ℝ) :
    (computeChromagram samples sampleRate).length = 12 ∧
    (∀ v ∈ computeChromagram samples sampleRate, 0 ≤ v ∧ v ≤ 1) ∧
    (chromaTotal samples sampleRate ≠ 0 →
      ∃ v ∈ computeChromagram samples sampleRate, v = 1) ∧
    (chromaTotal samples sampleRate = 0 →
      ∀ v ∈ computeChromagram samples sampleRate, v = 0) := by
  by_cases hlen : samples.length < kFFTSize
  · have hout : computeChromagram samples sampleRate = List.replicate 12 0 := by
      rw [computeChromagram, if_pos hlen]
    have htot : chromaTotal samples sampleRate = 0 := by
      rw [chromaTotal, if_pos hlen]
    refine ⟨by rw [hout]; simp, ?_, ?_, ?_⟩
    · intro v hv
      rw [hout] at hv
      rw [List.eq_of_mem_replicate hv]
      norm_num
    · intro h
      exact absurd htot h
    · intro _ v hv
      rw [hout] at hv
      exact List.eq_of_mem_replicate hv
  · set c := chromaAccum samples (truncInt sampleRate) (chromaNumFrames samples.length)
      with hc
    have hcnn : ∀ pc, 0 ≤ c pc := fun pc => chromaAccum_nonneg _ _ _ _
    set M := (Finset.range 12).sup' ⟨0, by decide⟩ c with hM
    have hout : computeChromagram samples sampleRate =
        if 0 < M then (List.range 12).map (fun pc => c pc / M) else (List.range 12).map c := by
      rw [computeChromagram, if_neg hlen]
    have hMle : ∀ pc ∈ Finset.range 12, c pc ≤ M := by
      rw [hM]
      exact fun pc hpc => Finset.le_sup' c hpc
    have hMmem : ∃ pc ∈ Finset.range 12, M = c pc := by
      rw [hM]
      exact Finset.exists_mem_eq_sup' _ c
    obtain ⟨pc0, hpc0, hMeq⟩ := hMmem
    have htot : chromaTotal samples sampleRate = ∑ pc in Finset.range 12, c pc := by
      rw [chromaTotal, if_neg hlen]
    by_cases hpos : 0 < M
    · rw [if_pos hpos] at hout
      refine ⟨by rw [hout]; simp, ?_, ?_, ?_⟩
      · intro v hv
        rw [hout] at hv
        obtain ⟨pc, hpc, rfl⟩ := List.mem_map.mp hv
        have hpc12 : pc ∈ Finset.range 12 := Finset.mem_range.mpr (List.mem_range.mp hpc)
        exact ⟨div_nonneg (hcnn pc) hpos.le, (div_le_one hpos).mpr (hMle pc hpc12)⟩
      · intro _
        refine ⟨c pc0 / M, ?_, ?_⟩
        · rw [hout]
          exact List.mem_map.mpr ⟨pc0, List.mem_range.mpr (Finset.mem_range.mp hpc0), rfl⟩
        · rw [← hMeq, div_self hpos.ne']
      · intro h0
        exfalso
        rw [htot] at h0
        have hall := (Finset.sum_eq_zero_iff_of_nonneg fun pc _ => hcnn pc).mp h0
        rw [hMeq, hall pc0 hpc0] at hpos
        exact lt_irrefl 0 hpos
    · rw [if_neg hpos] at hout
      have hM0 : M = 0 := le_antisymm (not_lt.mp hpos) (hMeq ▸ hcnn pc0)
      have hall : ∀ pc ∈ Finset.range 12, c pc = 0 := fun pc hpc =>
        le_antisymm (hM0 ▸ hMle pc hpc) (hcnn pc)
      have hzero : ∀ v ∈ computeChromagram samples sampleRate, v = 0 := by
        intro v hv
        rw [hout] at hv
        obtain ⟨pc, hpc, rfl⟩ := List.mem_map.mp hv
        exact hall pc (Finset.mem_range.mpr (List.mem_range.mp hpc))
      refine ⟨by rw [hout]; simp, ?_, ?_, fun _ => hzero⟩
      · intro v hv
        rw [hzero v hv]
        norm_num
      · intro h0
        exfalso
        exact h0 (htot.trans (Finset.sum_eq_zero hall))

/-- Witness for C1's zero-energy clause at the concrete empty input: the
total energy is 0 and every element of the chromagram is 0. -/
theorem chromagram_zero_energy_witness :
    chromaTotal [] 44100 = 0 ∧ ∀ v ∈ computeChromagram ([] : List ℝ) 44100, v = 0 :=
  ⟨by rw [chromaTotal]; norm_num [kFFTSize],
    (chromagram_shape_and_normalization [] 44100).2.2.2
      (by rw [chromaTotal]; norm_num [kFFTSize])⟩

lemma getD_map_range (N i : ℕ) (f : ℕ → ℝ) (h : i < N) :
    ((List.range N).map f).getD i 0 = f i := by
  rw [List.getD_eq_getElem?_getD]
  simp [List.getElem?_map, List.getElem?_range h]

lemma truncInt_ofNat (n : ℕ) : truncInt (n : ℝ) = (n : ℤ) := by
  rw [truncInt, if_pos (by positivity)]
  exact Int.floor_natCast n

/-- C4 (code bug): for a 2000-sample input at 22050 Hz the code's truncated
`int` division gives `numFrames = 1` where the spec's floor division gives
0, so `computeMelSpectrogram` emits one 229-value frame (reading 48 samples
past the end of the buffer in the C++ source) instead of the empty result
the spec requires. -/
theorem melspec_frame_count_bug :
    melNumFrames 2000 = 1 ∧ specNumFrames 2000 = 0 ∧
      (computeMelSpectrogram (List.replicate 2000 0) 22050).length = kMelBins := by
  have htr : truncInt (22050 : ℝ) = kTargetSampleRate := by
    have := truncInt_ofNat 22050
    norm_num at this
    rw [kTargetSampleRate]
    exact_mod_cast this
  have haudio : melAudio (List.replicate 2000 (0 : ℝ)) 22050 = List.replicate 2000 0 := by
    rw [melAudio, if_neg (not_not.mpr htr)]
  refine ⟨by decide, by decide, ?_⟩
  simp only [computeMelSpectrogram, haudio, List.length_replicate]
  norm_num [melNumFrames, kFFTSize, kHopSize, kMelBins,
    show Int.tdiv 48 512 = 0 from by decide]

/-- C5: every entry of the mel spectrogram equals `ln(max(energy, 1e-10))`
of the corresponding mel-bin energy, hence is at least `ln(1e-10)` — the
log argument is floored before the logarithm, so no entry can be `-∞`. -/
theorem melspec_log_floor (samples : List ℝ) (sampleRate : ℝ) (i : ℕ)
    (hi : i < (computeMelSpectrogram samples sampleRate).length) :
    Real.log 1e-10 ≤ (computeMelSpectrogram samples sampleRate).getD i 0 ∧
    (computeMelSpectrogram samples sampleRate).getD i 0
      = Real.log (max (melEnergy (melAudio samples sampleRate)
          (i / kMelBins * kHopSize) (i % kMelBins)) 1e-10) := by
  have hlow : ∀ e : ℝ, Real.log 1e-10 ≤ Real.log (max e 1e-10) :=
    fun e => Real.log_le_log (by norm_num) (le_max_right e _)
  rcases Nat.eq_zero_or_pos (melNumFrames (melAudio samples sampleRate).length) with h0 | h0
  · exfalso
    rw [computeMelSpectrogram] at hi
    simp only [h0, if_pos] at hi
    simp at hi
  · have hne : ¬ melNumFrames (melAudio samples sampleRate).length = 0 := by omega
    have hout : computeMelSpectrogram samples sampleRate =
        (List.range (melNumFrames (melAudio samples sampleRate).length * kMelBins)).map
          (fun idx => melEntry (melAudio samples sampleRate) (idx / kMelBins) (idx % kMelBins)) := by
      rw [computeMelSpectrogram]
      simp only [hne, if_neg]
      simp
    rw [hout] at hi ⊢
    rw [List.length_map, List.length_range] at hi
    rw [getD_map_range _ _ _ hi, melEntry]
    exact ⟨hlow _, rfl⟩

/-- Witness for C5 at 2048 zero samples at 22050 Hz: the spectrogram has
229 entries and the theorem applies at index 0. -/
theorem melspec_log_floor_witness :
    0 < (computeMelSpectrogram (List.replicate 2048 0) 22050).length ∧
      Real.log 1e-10 ≤ (computeMelSpectrogram (List.replicate 2048 0) 22050).getD 0 0 :=
  have hlen : 0 < (computeMelSpectrogram (List.replicate 2048 (0 : ℝ)) 22050).length := by
    have htr : truncInt (22050 : ℝ) = kTargetSampleRate := by
      have := truncInt_ofNat 22050
      norm_num at this
      rw [kTargetSampleRate]
      exact_mod_cast this
    have haudio : melAudio (List.replicate 2048 (0 : ℝ)) 22050 = List.replicate 2048 0 := by
      rw [melAudio, if_neg (not_not.mpr htr)]
    simp only [computeMelSpectrogram, haudio, List.length_replicate]
    norm_num [melNumFrames, kFFTSize, kHopSize, kMelBins]
  ⟨hlen, (melspec_log_floor (List.replicate 2048 0) 22050 0 hlen).1⟩

lemma melRange_lt : hzToMel kMinFreq < hzToMel kMaxFreq := by
  rw [hzToMel, hzToMel, kMinFreq, kMaxFreq, Real.logb, Real.logb]
  have hlog : Real.log (1 + 30 / 700) < Real.log (1 + 11025 / 700) :=
    Real.log_lt_log (by norm_num) (by norm_num)
  have hten : (0 : ℝ) < Real.log 10 := Real.log_pos (by norm_num)
  have := (div_lt_div_iff_of_pos_right hten).mpr hlog
  linarith

lemma melPoint_lt (i : ℕ) : melPoint i < melPoint (i + 1) := by
  rw [melPoint, melPoint]
  have hd : 0 < hzToMel kMaxFreq - hzToMel kMinFreq := by linarith [melRange_lt]
  have hden : (0 : ℝ) < (kMelBins : ℝ) + 1 := by norm_num [kMelBins]
  have hnum : (hzToMel kMaxFreq - hzToMel kMinFreq) * (i : ℝ)
      < (hzToMel kMaxFreq - hzToMel kMinFreq) * ((i + 1 : ℕ) : ℝ) := by
    have hcast : (i : ℝ) < ((i + 1 : ℕ) : ℝ) := by push_cast; linarith
    exact mul_lt_mul_of_pos_left hcast hd
  have hstep := (div_lt_div_iff_of_pos_right hden).mpr hnum
  linarith

lemma melToHz_lt {x y : ℝ} (h : x < y) : melToHz x < melToHz y := by
  rw [melToHz, melToHz]
  have : (10 : ℝ) ^ (x / 2595) < (10 : ℝ) ^ (y / 2595) :=
    (Real.rpow_lt_rpow_left_iff (by norm_num)).mpr (by linarith)
  linarith

lemma binFreqCoord_lt (i : ℕ) : binFreqCoord i < binFreqCoord (i + 1) := by
  rw [binFreqCoord, binFreqCoord]
  have h := melToHz_lt (melPoint_lt i)
  have hscale : (0 : ℝ) < (kFFTSize : ℝ) / (kTargetSampleRate : ℝ) := by
    norm_num [kFFTSize, kTargetSampleRate]
  calc melToHz (melPoint i) * (kFFTSize : ℝ) / (kTargetSampleRate : ℝ)
      = melToHz (melPoint i) * ((kFFTSize : ℝ) / (kTargetSampleRate : ℝ)) := by ring
    _ < melToHz (melPoint (i + 1)) * ((kFFTSize : ℝ) / (kTargetSampleRate : ℝ)) := by
        exact mul_lt_mul_of_pos_right h hscale
    _ = melToHz (melPoint (i + 1)) * (kFFTSize : ℝ) / (kTargetSampleRate : ℝ) := by ring

lemma binFreqCoord_zero : binFreqCoord 0 = 30 * 2048 / 22050 := by
  rw [binFreqCoord, melPoint]
  have h0 : hzToMel kMinFreq + (hzToMel kMaxFreq - hzToMel kMinFreq) * ((0 : ℕ) : ℝ)
      / ((kMelBins : ℝ) + 1) = hzToMel kMinFreq := by
    simp
  rw [h0, melToHz, hzToMel, kMinFreq]
  have harg : 2595 * Real.logb 10 (1 + 30 / 700) / 2595 = Real.logb 10 (1 + 30 / 700) := by
    ring
  rw [harg, Real.rpow_logb (by norm_num) (by norm_num) (by norm_num)]
  norm_num [kFFTSize, kTargetSampleRate]

/-- C7: each filterbank row is the guarded triangle on
`[binFreqs[m], binFreqs[m+2]]`: zero outside, the rising slope on
`[left, center]`, the falling slope on `(center, right]`, value exactly 1 at
the center coordinate; a degenerate edge (`center == left` or
`right == center`) yields zero weight instead of dividing by zero. -/
theorem melFilterbank_triangles (m : ℕ) (x : ℝ) :
    (x < binFreqCoord m →
      triWeight (binFreqCoord m) (binFreqCoord (m + 1)) (binFreqCoord (m + 2)) x = 0) ∧
    (binFreqCoord (m + 2) < x →
      triWeight (binFreqCoord m) (binFreqCoord (m + 1)) (binFreqCoord (m + 2)) x = 0) ∧
    (binFreqCoord m ≤ x → x ≤ binFreqCoord (m + 1) →
      triWeight (binFreqCoord m) (binFreqCoord (m + 1)) (binFreqCoord (m + 2)) x
        = (x - binFreqCoord m) / (binFreqCoord (m + 1) - binFreqCoord m)) ∧
    (binFreqCoord (m + 1) < x → x ≤ binFreqCoord (m + 2) →
      triWeight (binFreqCoord m) (binFreqCoord (m + 1)) (binFreqCoord (m + 2)) x
        = (binFreqCoord (m + 2) - x) / (binFreqCoord (m + 2) - binFreqCoord (m + 1))) ∧
    triWeight (binFreqCoord m) (binFreqCoord (m + 1)) (binFreqCoord (m + 2))
      (binFreqCoord (m + 1)) = 1 ∧
    (∀ l r y : ℝ, y ≤ l → triWeight l l r y = 0) ∧
    (∀ l c y : ℝ, c < y → triWeight l c c y = 0) ∧
    ∀ k : ℕ, melFilterbank m k
      = triWeight (binFreqCoord m) (binFreqCoord (m + 1)) (binFreqCoord (m + 2)) (k : ℝ) := by
  have hl : binFreqCoord m < binFreqCoord (m + 1) := binFreqCoord_lt m
  have hr : binFreqCoord (m + 1) < binFreqCoord (m + 2) := binFreqCoord_lt (m + 1)
  refine ⟨?_, ?_, ?_, ?_, ?_, ?_, ?_, fun k => rfl⟩
  · intro hx
    rw [triWeight, if_neg (fun h => absurd h.1 (not_le.mpr hx)),
      if_neg (fun h => absurd h.1 (by linarith))]
  · intro hx
    rw [triWeight, if_neg (fun h => absurd h.2.1 (by push_neg; linarith)),
      if_neg (fun h => absurd h.2.1 (not_le.mpr hx))]
  · intro hx1 hx2
    rw [triWeight, if_pos ⟨hx1, hx2, hl⟩]
  · intro hx1 hx2
    rw [triWeight, if_neg (fun h => absurd h.2.1 (not_le.mpr hx1)), if_pos ⟨hx1, hx2, hr⟩]
  · rw [triWeight, if_pos ⟨hl.le, le_rfl, hl⟩, div_self (sub_ne_zero.mpr hl.ne')]
  · intro l r y hy
    rw [triWeight, if_neg (fun h => absurd h.2.2 (lt_irrefl l)),
      if_neg (fun h => absurd h.1 (by push_neg; exact hy))]
  · intro l c y hy
    rw [triWeight, if_neg (fun h => absurd h.2.1 (not_le.mpr hy)),
      if_neg (fun h => absurd h.2.1 (not_le.mpr hy))]

/-- C3 (amended: the interpolation path is taken when the *integer
truncation* of the source rate differs from 22050, and the rate is
positive): the output length is `⌈len(x) · (22050/sr)⌉`, and each output
sample follows the linear-interpolation formula with `idx0 = ⌊srcPos⌋`,
`frac = srcPos - idx0`, zero past the end of the input. -/
theorem resample_interpolation (x : List ℝ) (sr : ℝ) (hpos : 0 < sr)
    (hne : truncInt sr ≠ kTargetSampleRate) :
    (((resampleTo22050 x sr).length : ℤ)
      = ⌈(x.length : ℝ) * ((kTargetSampleRate : ℝ) / sr)⌉) ∧
    ∀ i : ℕ, i < (resampleTo22050 x sr).length →
      (resampleTo22050 x sr).getD i 0 =
        (if ⌊(i : ℝ) / ((kTargetSampleRate : ℝ) / sr)⌋ + 1 < (x.length : ℤ) then
          x.getD (⌊(i : ℝ) / ((kTargetSampleRate : ℝ) / sr)⌋).toNat 0 *
              (1 - ((i : ℝ) / ((kTargetSampleRate : ℝ) / sr)
                - (⌊(i : ℝ) / ((kTargetSampleRate : ℝ) / sr)⌋ : ℝ))) +
            x.getD ((⌊(i : ℝ) / ((kTargetSampleRate : ℝ) / sr)⌋).toNat + 1) 0 *
              ((i : ℝ) / ((kTargetSampleRate : ℝ) / sr)
                - (⌊(i : ℝ) / ((kTargetSampleRate : ℝ) / sr)⌋ : ℝ))
        else if ⌊(i : ℝ) / ((kTargetSampleRate : ℝ) / sr)⌋ < (x.length : ℤ) then
          x.getD (⌊(i : ℝ) / ((kTargetSampleRate : ℝ) / sr)⌋).toNat 0
        else 0) := by
  have hratio : (0 : ℝ) < (kTargetSampleRate : ℝ) / sr := by
    apply div_pos _ hpos
    norm_num [kTargetSampleRate]
  have hres : resampleTo22050 x sr =
      (List.range (⌈(x.length : ℝ) * ((kTargetSampleRate : ℝ) / sr)⌉).toNat).map (fun (i : ℕ) =>
        if truncInt ((i : ℝ) / ((kTargetSampleRate : ℝ) / sr)) + 1 < (x.length : ℤ) then
          x.getD (truncInt ((i : ℝ) / ((kTargetSampleRate : ℝ) / sr))).toNat 0 *
              (1 - ((i : ℝ) / ((kTargetSampleRate : ℝ) / sr)
                - (truncInt ((i : ℝ) / ((kTargetSampleRate : ℝ) / sr)) : ℝ))) +
            x.getD ((truncInt ((i : ℝ) / ((kTargetSampleRate : ℝ) / sr))).toNat + 1) 0 *
              ((i : ℝ) / ((kTargetSampleRate : ℝ) / sr)
                - (truncInt ((i : ℝ) / ((kTargetSampleRate : ℝ) / sr)) : ℝ))
        else if truncInt ((i : ℝ) / ((kTargetSampleRate : ℝ) / sr)) < (x.length : ℤ) then
          x.getD (truncInt ((i : ℝ) / ((kTargetSampleRate : ℝ) / sr))).toNat 0
        else 0) := by
    rw [resampleTo22050, if_neg hne]
  have htrunc : ∀ i : ℕ, truncInt ((i : ℝ) / ((kTargetSampleRate : ℝ) / sr))
      = ⌊(i : ℝ) / ((kTargetSampleRate : ℝ) / sr)⌋ := by
    intro i
    rw [truncInt, if_pos (div_nonneg (Nat.cast_nonneg i) hratio.le)]
  constructor
  · rw [hres, List.length_map, List.length_range]
    exact Int.toNat_of_nonneg (Int.ceil_nonneg (by positivity))
  · intro i hi
    rw [hres, List.length_map, List.length_range] at hi
    rw [hres, getD_map_range _ _ _ hi, htrunc i]

/-- Witness for C3 at the concrete input `[0, 1]` resampled from 44100 Hz:
the length clause of the theorem instantiated there. -/
theorem resample_interpolation_witness :
    (0 : ℝ) < 44100 ∧ truncInt (44100 : ℝ) ≠ kTargetSampleRate ∧
      (((resampleTo22050 [0, 1] 44100).length : ℤ)
        = ⌈(([0, 1] : List ℝ).length : ℝ) * ((kTargetSampleRate : ℝ) / 44100)⌉) :=
  have h1 : (0 : ℝ) < 44100 := by norm_num
  have h2 : truncInt (44100 : ℝ) ≠ kTargetSampleRate := by
    rw [truncInt, if_pos (by norm_num)]
    norm_num [kTargetSampleRate]
  ⟨h1, h2, (resample_interpolation [0, 1] 44100 h1 h2).1⟩

/-- C3 counterexample: the claim quantifies over every `sr ≠ 22050`, but at
`sr = 22050.5` (whose truncation equals 22050) the code takes the identity
path, so a 44102-sample input keeps its length while the claimed formula
gives `⌈44102 · 22050/22050.5⌉ = 44101`. -/
theorem resample_length_counterexample :
    (22050.5 : ℝ) ≠ 22050 ∧
      ((resampleTo22050 (List.replicate 44102 0) 22050.5).length : ℤ)
        ≠ ⌈(44102 : ℝ) * ((kTargetSampleRate : ℝ) / 22050.5)⌉ := by
  refine ⟨by norm_num, ?_⟩
  have htr : truncInt (22050.5 : ℝ) = kTargetSampleRate := by
    rw [truncInt, if_pos (by norm_num)]
    norm_num [kTargetSampleRate]
  rw [resampleTo22050, if_pos htr, List.length_replicate]
  have hceil : ⌈(44102 : ℝ) * ((kTargetSampleRate : ℝ) / 22050.5)⌉ = 44101 := by
    rw [kTargetSampleRate]
    push_cast
    rw [Int.ceil_eq_iff]
    norm_num
  rw [hceil]
  norm_num

/-- C2 counterexample: the claim's bin-frequency formula
`freq = k·sampleRate/kFFTSize` fails for the non-integral rate 22050.5 at
bin `k = 1`: the code uses the truncated rate 22050. -/
theorem chromagram_binfreq_counterexample :
    chromaFreq (truncInt (22050.5 : ℝ)) 1 ≠ (1 : ℝ) * 22050.5 / (kFFTSize : ℝ) := by
  have h : truncInt (22050.5 : ℝ) = 22050 := by
    rw [truncInt, if_pos (by norm_num)]
    norm_num
  rw [h, chromaFreq, kFFTSize]
  norm_num

end ChordDSP
